import Mathlib

set_option maxRecDepth 8192

/-!
Verification of the VoiceClaw backend streaming core against its
natural-language specification.

The development shallowly embeds the Python sources
`backend/services/streaming.py` (sentence segmentation and the
sentence-buffered streaming orchestrator) and `backend/services/llm.py`
(bounded conversation history and the `get_response` error handling)
as executable Lean functions over `List Char` text, and proves the
specified properties about them.
-/

namespace VoiceClaw

/-! ## Text utilities (Python `str.strip`, `str.upper`, `in`, `replace`) -/

/-- Whitespace characters stripped by Python `str.strip()` (ASCII subset). -/
def isWsChar (c : Char) : Bool :=
  c == ' ' || c == '\t' || c == '\n' || c == '\r' || c == '\x0b' || c == '\x0c'

/-- Python `text.strip()`: remove leading and trailing whitespace. -/
def pyStrip (s : List Char) : List Char :=
  ((s.dropWhile isWsChar).reverse.dropWhile isWsChar).reverse

/-- Python `str.upper()` on one character (ASCII). -/
def upChar (c : Char) : Char := c.toUpper

/-- Python `full_response.upper().replace(" ", "")`: uppercase, then delete
space characters only (other whitespace such as newlines is kept). -/
def normalizeForMarker (s : List Char) : List Char :=
  (s.map upChar).filter (fun c => !(c == ' '))

/-- Boolean prefix test on character lists. -/
def startsWithB : List Char → List Char → Bool
  | [], _ => true
  | _ :: _, [] => false
  | a :: as, b :: bs => a == b && startsWithB as bs

/-- Python substring containment `needle in hay`. -/
def containsSub (needle : List Char) : List Char → Bool
  | [] => startsWithB needle []
  | c :: rest => startsWithB needle (c :: rest) || containsSub needle rest

/-- The abort marker `"NO_REPLY"`. -/
def markerNOREPLY : List Char := ['N', 'O', '_', 'R', 'E', 'P', 'L', 'Y']

/-! ## Sentence segmenter (`streaming.py` lines 14-19)

The source compiles the regex `[.!?]\s*$|[.!?]\"?\s*$` and returns whether
it `search`-matches `text.strip()`.  A match of either alternative ends at
the end of the string, so `search` succeeds iff some suffix of the stripped
text is in the union language: a sentence-ending punctuation character,
optionally followed by one double quote, followed by whitespace only. -/

/-- One of `.` `!` `?`. -/
def isPunctChar (c : Char) : Bool := c == '.' || c == '!' || c == '?'

/-- Whether a string matches (entirely) `[.!?]\"?\s*` — the union of the two
regex alternatives, each anchored at `$`: a sentence-ending punctuation
character, then either whitespace only, or one `"` followed by whitespace
only. -/
def matchesAlt : List Char → Bool
  | [] => false
  | p :: rest =>
      isPunctChar p &&
        (rest.all isWsChar ||
          ((rest.head?.any fun c => c == '"') && (rest.drop 1).all isWsChar))

/-- `re.search` of the anchored pattern: some suffix matches. -/
def regexSearchSentEnd : List Char → Bool
  | [] => false
  | c :: rest => matchesAlt (c :: rest) || regexSearchSentEnd rest

/-- `is_sentence_complete` from `streaming.py`:
`bool(SENTENCE_END_PATTERN.search(text.strip()))`. -/
def is_sentence_complete (text : List Char) : Bool :=
  regexSearchSentEnd (pyStrip text)

/-- The spec's wording for C3 ("t with surrounding whitespace trimmed ends in
one of . ! ?, optionally followed by a single closing quotation mark, at the
end of the string"), written directly from those words for comparison: the
trimmed text's last character is `.` `!` `?`, or it is `"` and the character
before it is `.` `!` `?`. -/
def sentenceCompleteSpec (text : List Char) : Bool :=
  let t := pyStrip text
  t.getLast?.any isPunctChar ||
    ((t.getLast?.any fun c => c == '"') && t.dropLast.getLast?.any isPunctChar)

/-! ## Conversation history (`llm.py` lines 87-109, 252-262) -/

/-- A message role; `add_to_history` is documented to receive one of
`system`, `user`, `assistant`. -/
inductive Role where
  | system
  | user
  | assistant
deriving DecidableEq, Repr

/-- One conversation turn: `{"role": ..., "content": ...}`. -/
structure Turn where
  role : Role
  content : List Char
deriving DecidableEq, Repr

/-- `LLMClient.add_to_history`: append, then if the length exceeds 50 evict,
keeping `history[0]` plus the last 49 entries when `history[0]` is a system
turn, and keeping the last 50 entries otherwise. -/
def add_to_history (h : List Turn) (t : Turn) : List Turn :=
  let h2 := h ++ [t]
  if 50 < h2.length then
    match h2 with
    | [] => []
    | first :: _ =>
        if first.role = Role.system then
          first :: h2.drop (h2.length - 49)
        else
          h2.drop (h2.length - 50)
  else h2

/-- `LLMClient.clear_history`: keep only a leading system turn when
`keep_system_prompt` is set and one exists; otherwise empty the history. -/
def clear_history (h : List Turn) (keep_system_prompt : Bool) : List Turn :=
  match h with
  | first :: _ =>
      if keep_system_prompt && first.role = Role.system then [first] else []
  | [] => []

/-! ## `LLMClient.get_response` (`llm.py` lines 111-250)

The HTTP interaction is abstracted as an `Outcome` value: the extracted
assistant message on success, a `requests` `HTTPError` with its status code,
any other `requests.RequestException`, or any other Python exception.  The
model returns the new history, the outbound message list that was built, the
returned text and whether the returned dictionary carried an `error` key. -/

/-- Result of the HTTP call made inside `get_response`. -/
inductive Outcome where
  | success (assistantMessage : List Char)
  | httpError (status : Nat) (emsg : List Char)
  | transportError (emsg : List Char)
  | unknownError (emsg : List Char)
deriving DecidableEq, Repr

/-- What one `get_response` call produces: the mutated history, the outbound
`messages` list sent to the API, the `text` field of the returned dictionary
and whether that dictionary carried an `error` key. -/
structure GRResult where
  history : List Turn
  messages : List Turn
  text : List Char
  isError : Bool
deriving DecidableEq, Repr

/-- `"I'm sorry, I encountered a problem connecting to my language model. "
++ str(e)` — the apology produced in the `requests.RequestException` handler. -/
def transportApology (emsg : List Char) : List Char :=
  (String.toList
    "I'm sorry, I encountered a problem connecting to my language model. ") ++ emsg

/-- The apology produced in the generic `Exception` handler. -/
def genericApology : List Char :=
  String.toList "I'm sorry, I encountered an unexpected error. Please try again."

/-- `LLMClient.get_response(user_input, system_prompt, add_to_history)`.
Faithful to the source control flow: the user turn is appended to history
first (when non-blank and `add`), the outbound messages are the optional
system prompt, the history, and — only when not adding to history — the
transient user turn; then the outcome of the HTTP call decides the rest.
Payload fields (temperature, model, max_tokens) and logging carry no state
and are omitted. -/
def get_response (h : List Turn) (user_input : List Char)
    (system_prompt : Option (List Char)) (add : Bool) (out : Outcome) :
    GRResult :=
  let h1 := if pyStrip user_input ≠ [] ∧ add then
      add_to_history h ⟨Role.user, user_input⟩
    else h
  let sysMsgs : List Turn := match system_prompt with
    | some sp => [⟨Role.system, sp⟩]
    | none => []
  let msgs := sysMsgs ++ h1 ++
    (if pyStrip user_input ≠ [] ∧ ¬ add then [⟨Role.user, user_input⟩] else [])
  match out with
  | Outcome.success assistantMessage =>
      let h2 := if assistantMessage ≠ [] ∧ add then
          add_to_history h1 ⟨Role.assistant, assistantMessage⟩
        else h1
      ⟨h2, msgs, assistantMessage, false⟩
  | Outcome.httpError status emsg =>
      let apology := transportApology emsg
      let h2 := if add then add_to_history h1 ⟨Role.assistant, apology⟩ else h1
      let h3 := if add ∧ status = 400 then clear_history h2 true else h2
      ⟨h3, msgs, apology, true⟩
  | Outcome.transportError emsg =>
      let apology := transportApology emsg
      let h2 := if add then add_to_history h1 ⟨Role.assistant, apology⟩ else h1
      ⟨h2, msgs, apology, true⟩
  | Outcome.unknownError _ =>
      let h2 := add_to_history h1 ⟨Role.assistant, genericApology⟩
      ⟨h2, msgs, genericApology, true⟩

/-! ## Streaming orchestrator (`streaming.py` lines 22-136)

The websocket messages become an `Event` list; the LLM token stream becomes
a `List (List Char)` of tokens; the speech-synthesis collaborator
`tts_client.async_text_to_speech` becomes an oracle
`tts : List Char → Option Audio`, `none` standing for a raised exception
(caught and logged by the source).  `first_audio_sent` and all timestamps
only feed logging and are omitted. -/

/-- Synthesized audio bytes (kept abstract as a character list, the value the
oracle returns). -/
abbrev Audio := List Char

/-- The `metadata` object of an `LLM_RESPONSE` message. -/
inductive RespMeta where
  | noReply
  | streaming (sentences : Nat)
deriving DecidableEq, Repr

/-- One websocket `send_json` of the orchestrator.  `ttsEndNoTotal` is the
abort-path `TTS_END`, which carries no `total_sentences` field; `ttsChunk` is
the mid-stream `TTS_CHUNK` (no `is_final` field); `ttsChunkFinal` is the
end-of-stream flush chunk with `is_final: true`. -/
inductive Event where
  | ttsStart
  | ttsChunk (sentence_num : Nat) (audio : Audio)
  | ttsChunkFinal (sentence_num : Nat) (audio : Audio)
  | ttsEndNoTotal
  | ttsEnd (total_sentences : Nat)
  | llmResponse (text : List Char) (metadata : RespMeta)
deriving DecidableEq, Repr

/-- Loop state of `stream_speech_with_buffering`: `buffer`, `full_response`,
`sentence_count`. -/
structure SState where
  buffer : List Char
  full : List Char
  count : Nat
deriving DecidableEq, Repr

/-- The `async for token in llm_client.stream_response(...)` loop.  Returns
the events the loop sends, the state after it, and whether the `NO_REPLY`
early return was taken (in which case the abort messages are the last two
events returned and the remaining tokens are never consumed). -/
def runTokens (tts : List Char → Option Audio) :
    List (List Char) → SState → List Event × SState × Bool
  | [], st => ([], st, false)
  | tok :: rest, st =>
      let buffer := st.buffer ++ tok
      let full := st.full ++ tok
      if containsSub markerNOREPLY (normalizeForMarker full) then
        ([Event.ttsEndNoTotal, Event.llmResponse full RespMeta.noReply],
          ⟨buffer, full, st.count⟩, true)
      else if is_sentence_complete buffer ∧ 10 < (pyStrip buffer).length then
        let sentence := pyStrip buffer
        let count := st.count + 1
        let evs := match tts sentence with
          | some audio => [Event.ttsChunk count audio]
          | none => []
        let res := runTokens tts rest ⟨[], full, count⟩
        (evs ++ res.1, res.2)
      else
        runTokens tts rest ⟨buffer, full, st.count⟩

/-- The events sent after the loop ends normally: the final-buffer flush,
`TTS_END{total_sentences}`, `LLM_RESPONSE{text, metadata}`.  Returns the
events together with the final sentence count. -/
def finishEvents (tts : List Char → Option Audio) (st : SState) :
    List Event × Nat :=
  if pyStrip st.buffer ≠ [] then
    let count := st.count + 1
    let flush := match tts (pyStrip st.buffer) with
      | some audio => [Event.ttsChunkFinal count audio]
      | none => []
    (flush ++ [Event.ttsEnd count, Event.llmResponse st.full (RespMeta.streaming count)],
      count)
  else
    ([Event.ttsEnd st.count, Event.llmResponse st.full (RespMeta.streaming st.count)],
      st.count)

/-- `stream_speech_with_buffering`: `TTS_START`, then the token loop, then —
unless the `NO_REPLY` abort returned early — the flush and the closing
`TTS_END` / `LLM_RESPONSE` pair. -/
def stream_speech_with_buffering (tts : List Char → Option Audio)
    (tokens : List (List Char)) : List Event :=
  let res := runTokens tts tokens ⟨[], [], 0⟩
  if res.2.2 then
    Event.ttsStart :: res.1
  else
    Event.ttsStart :: res.1 ++ (finishEvents tts res.2.1).1

/-- Whether the `NO_REPLY` early return fires for this token stream. -/
def abortsOn (tokens : List (List Char)) : Bool :=
  (runTokens (fun _ => none) tokens ⟨[], [], 0⟩).2.2

/-- The reference synthesis oracle that always succeeds, returning the
sentence text itself as the audio. -/
def okTTS : List Char → Option Audio := fun s => some s

/-- The sequence numbers of the `TTS_CHUNK` events in an event list, in
emission order (both mid-stream and final chunks). -/
def chunkNums : List Event → List Nat
  | [] => []
  | Event.ttsChunk n _ :: rest => n :: chunkNums rest
  | Event.ttsChunkFinal n _ :: rest => n :: chunkNums rest
  | _ :: rest => chunkNums rest

/-- Whether an event is a `TTS_CHUNK` (mid-stream or final). -/
def isChunkEv : Event → Bool
  | Event.ttsChunk _ _ => true
  | Event.ttsChunkFinal _ _ => true
  | _ => false

/-- Shorthand: the character list of a string literal. -/
def strL (s : String) : List Char := s.toList

/-- Loop state reached by a run (`buffer`, `full_response`, `sentence_count`
after the token loop). -/
def streamState (tts : List Char → Option Audio) (tokens : List (List Char)) :
    SState :=
  (runTokens tts tokens ⟨[], [], 0⟩).2.1

/-- The events the token loop itself sends during a run. -/
def midEvents (tts : List Char → Option Audio) (tokens : List (List Char)) :
    List Event :=
  (runTokens tts tokens ⟨[], [], 0⟩).1

/-- The `total_sentences` value a non-aborted run reports: the number of
sentence boundaries detected, including the end-of-stream flush.  Defined
over the always-succeeding oracle, so it counts sentences whether or not
their synthesis succeeds. -/
def totalSentencesOf (tokens : List (List Char)) : Nat :=
  (finishEvents okTTS (streamState okTTS tokens)).2

/-- Transport of one event from the reference all-success run (whose chunk
audio is the sentence text itself) to the run with oracle `tts`: chunks of
sentences whose synthesis fails are dropped, chunks of sentences whose
synthesis succeeds get their real audio, all other events pass unchanged. -/
def transferTTS (tts : List Char → Option Audio) : Event → Option Event
  | Event.ttsChunk n a => (tts a).map (Event.ttsChunk n)
  | Event.ttsChunkFinal n a => (tts a).map (Event.ttsChunkFinal n)
  | e => some e

/-- A synthesis oracle that fails on exactly one sentence, used as a
concrete run witnessing sentence-number gaps. -/
def failTTS : List Char → Option Audio :=
  fun s => if s = strL "This is failing one." then none else some s

/-- Two tokens forming two sentences; under `failTTS` the first sentence's
synthesis fails. -/
def toksGap : List (List Char) :=
  [strL "This is failing one.", strL " Then another good one."]

/-- A concrete system turn. -/
def sysT : Turn := ⟨Role.system, strL "s"⟩

/-- Concrete user turns with distinct contents. -/
def userT (n : Nat) : Turn := ⟨Role.user, List.replicate (n + 1) 'u'⟩

/-- An append sequence with two system turns followed by 49 user turns:
appending all 51 makes the history overflow once. -/
def dblSysSeq : List Turn := sysT :: sysT :: (List.range 49).map userT

/-! # Proofs

## The sentence segmenter (claim C3) -/

lemma head?_dropWhile_not {α : Type} (p : α → Bool) :
    ∀ l : List α, ∀ a, (l.dropWhile p).head? = some a → p a = false := by
  intro l
  induction l with
  | nil => intro a h; simp [List.dropWhile] at h
  | cons x xs ih =>
      intro a h
      rw [List.dropWhile_cons] at h
      by_cases hx : p x = true
      · rw [if_pos hx] at h
        exact ih a h
      · rw [if_neg hx] at h
        simp only [List.head?_cons, Option.some.injEq] at h
        subst h
        exact Bool.eq_false_iff.mpr hx

lemma pyStrip_getLast_not_ws (s : List Char) :
    ∀ c, (pyStrip s).getLast? = some c → isWsChar c = false := by
  intro c h
  unfold pyStrip at h
  rw [List.getLast?_reverse] at h
  exact head?_dropWhile_not isWsChar _ c h

lemma regexSearch_nil : regexSearchSentEnd [] = false := rfl

lemma regexSearch_singleton (c : Char) :
    regexSearchSentEnd [c] = isPunctChar c := by
  simp [regexSearchSentEnd, matchesAlt]

lemma regexSearch_concat2 (d c : Char) (hc : isWsChar c = false) :
    ∀ zs : List Char,
      regexSearchSentEnd (zs ++ [d, c]) =
        (isPunctChar c || (c == '"' && isPunctChar d)) := by
  intro zs
  induction zs with
  | nil =>
      simp only [List.nil_append, regexSearchSentEnd, matchesAlt]
      simp [hc]
      cases hpc : isPunctChar c <;> cases hpd : isPunctChar d <;>
        cases hq : (c == '"') <;> simp
  | cons a zs ih =>
      have hfalse : matchesAlt (a :: (zs ++ [d, c])) = false := by
        cases zs with
        | nil => simp [matchesAlt, hc]
        | cons w zs2 => simp [matchesAlt, List.all_append, hc]
      have hstep :
          regexSearchSentEnd (a :: (zs ++ [d, c])) =
            (matchesAlt (a :: (zs ++ [d, c])) || regexSearchSentEnd (zs ++ [d, c])) :=
        rfl
      rw [List.cons_append, hstep, hfalse, ih]
      simp

/-- C3: `is_sentence_complete` agrees with the spec's description — the
trimmed text ends in `.` `!` `?`, optionally followed by a single closing
quotation mark. -/
theorem C3_is_sentence_complete_matches_spec :
    ∀ text : List Char, is_sentence_complete text = sentenceCompleteSpec text := by
  intro text
  rcases List.eq_nil_or_concat (pyStrip text) with h | ⟨ys, c, h⟩
  · simp [is_sentence_complete, sentenceCompleteSpec, h, regexSearch_nil]
  · rw [List.concat_eq_append] at h
    have hc : isWsChar c = false :=
      pyStrip_getLast_not_ws text c (by rw [h, List.getLast?_concat])
    rcases List.eq_nil_or_concat ys with h2 | ⟨zs, d, h2⟩
    · subst h2
      simp only [List.nil_append] at h
      simp [is_sentence_complete, sentenceCompleteSpec, h, regexSearch_singleton]
    · rw [List.concat_eq_append] at h2
      subst h2
      have e1 : (zs ++ [d]) ++ [c] = zs ++ [d, c] := by simp
      rw [e1] at h
      unfold is_sentence_complete sentenceCompleteSpec
      rw [h, regexSearch_concat2 d c hc]
      have e2 : (zs ++ [d, c] : List Char) = (zs ++ [d]) ++ [c] := by simp
      rw [e2]
      simp [List.getLast?_concat, List.dropLast_concat]

/-! ## Conversation history (claims C4, C9) -/

lemma add_to_history_length (h : List Turn) (t : Turn) (hl : h.length ≤ 50) :
    (add_to_history h t).length ≤ 50 := by
  cases h with
  | nil => simp [add_to_history]
  | cons f hs =>
      simp only [add_to_history, List.cons_append]
      by_cases hlen : 50 < (f :: (hs ++ [t])).length
      · rw [if_pos hlen]
        simp only [List.length_cons, List.length_append, List.length_singleton] at hlen hl ⊢
        by_cases hrole : f.role = Role.system
        · rw [if_pos hrole]
          simp only [List.length_cons, List.length_drop, List.length_cons,
            List.length_append, List.length_singleton]
          omega
        · rw [if_neg hrole]
          simp only [List.length_drop, List.length_cons, List.length_append,
            List.length_singleton]
          omega
      · rw [if_neg hlen]
        simp only [List.length_cons, List.length_append, List.length_singleton] at hlen ⊢
        omega

lemma foldl_add_to_history_length :
    ∀ (turns : List Turn) (h : List Turn), h.length ≤ 50 →
      (turns.foldl add_to_history h).length ≤ 50 := by
  intro turns
  induction turns with
  | nil => intro h hh; simpa using hh
  | cons t ts ih => intro h hh; exact ih _ (add_to_history_length h t hh)

lemma add_to_history_head_sys (h : List Turn) (t : Turn) (f : Turn)
    (hf : h.head? = some f) (hrole : f.role = Role.system) :
    (add_to_history h t).head? = some f := by
  cases h with
  | nil => simp at hf
  | cons f0 hs =>
      simp only [List.head?_cons, Option.some.injEq] at hf
      subst hf
      simp only [add_to_history, List.cons_append]
      by_cases hlen : 50 < (f0 :: (hs ++ [t])).length
      · rw [if_pos hlen, if_pos hrole]
        simp
      · rw [if_neg hlen]
        simp

lemma foldl_add_to_history_head_sys :
    ∀ (turns : List Turn) (h : List Turn) (f : Turn),
      h.head? = some f → f.role = Role.system →
      (turns.foldl add_to_history h).head? = some f := by
  intro turns
  induction turns with
  | nil => intro h f hf _; simpa using hf
  | cons t ts ih =>
      intro h f hf hrole
      exact ih _ f (add_to_history_head_sys h t f hf hrole) hrole

/-- C4 counterexample: appending two system turns and then 49 user turns
overflows the history once; the eviction removes the second system turn
(index 1) even though 49 older-than-nothing non-system turns are present, so
eviction does not remove the oldest non-system turn first.  The claim (with
the first-ever appended turn of role system) predicts both system turns
survive; the code keeps only one. -/
theorem C4_counterexample :
    List.foldl add_to_history [] dblSysSeq = sysT :: (List.range 49).map userT := by
  decide

/-- C4 amended: the history length never exceeds 50; the first-ever appended
turn, when of role system, remains at index 0 forever; and an append to a
full (50-turn) history evicts exactly the turn at index 1 when index 0 is a
system turn (the oldest non-system turn whenever system turns occur only at
index 0) and the turn at index 0 otherwise, preserving the order of the
remaining turns. -/
theorem C4_amended :
    (∀ turns : List Turn, (turns.foldl add_to_history []).length ≤ 50) ∧
    (∀ (t0 : Turn) (rest : List Turn), t0.role = Role.system →
      ((t0 :: rest).foldl add_to_history []).head? = some t0) ∧
    (∀ (first : Turn) (rest2 : List Turn) (t : Turn),
      (first :: rest2).length = 50 →
      add_to_history (first :: rest2) t =
        if first.role = Role.system then first :: (rest2.drop 1 ++ [t])
        else rest2 ++ [t]) := by
  refine ⟨?_, ?_, ?_⟩
  · intro turns
    exact foldl_add_to_history_length turns [] (by simp)
  · intro t0 rest hrole
    have h1 : add_to_history [] t0 = [t0] := by simp [add_to_history]
    simp only [List.foldl_cons, h1]
    exact foldl_add_to_history_head_sys rest [t0] t0 (by simp) hrole
  · intro first rest2 t hlen
    simp only [List.length_cons] at hlen
    simp only [add_to_history, List.cons_append]
    rw [if_pos (by simp [List.length_append]; omega)]
    by_cases hrole : first.role = Role.system
    · rw [if_pos hrole, if_pos hrole]
      congr 1
      simp only [List.length_cons, List.length_append, List.length_singleton,
        List.length_nil, Nat.zero_add]
      have e3 : rest2.length + 1 + 1 - 49 = 2 := by omega
      rw [e3]
      show (rest2 ++ [t]).drop 1 = rest2.drop 1 ++ [t]
      rw [List.drop_append_of_le_length (by omega)]
    · rw [if_neg hrole, if_neg hrole]
      simp only [List.length_cons, List.length_append, List.length_singleton,
        List.length_nil, Nat.zero_add]
      have e3 : rest2.length + 1 + 1 - 50 = 1 := by omega
      rw [e3]
      simp

/-- C4 witness: a system turn followed by 60 user turns keeps the history at
50 turns with the system turn still first. -/
theorem C4_witness :
    ((sysT :: (List.range 60).map userT).foldl add_to_history []).length ≤ 50 ∧
    ((sysT :: (List.range 60).map userT).foldl add_to_history []).head? = some sysT ∧
    add_to_history (sysT :: (List.range 49).map userT) (userT 60) =
      sysT :: (((List.range 49).map userT).drop 1 ++ [userT 60]) := by
  refine ⟨C4_amended.1 _, C4_amended.2.1 sysT _ rfl, ?_⟩
  have h3 := C4_amended.2.2 sysT ((List.range 49).map userT) (userT 60) (by decide)
  rw [h3, if_pos (show sysT.role = Role.system from rfl)]

/-- C9: `clear_history` with `keep_system_prompt` true keeps exactly the
leading system turn when one exists and empties the history otherwise;
with `keep_system_prompt` false it always empties the history. -/
theorem C9_clear_history_spec :
    ∀ h : List Turn,
      (∀ f rest, h = f :: rest → f.role = Role.system →
        clear_history h true = [f] ∧ (clear_history h true).length = 1) ∧
      (∀ f rest, h = f :: rest → f.role ≠ Role.system →
        clear_history h true = []) ∧
      (h = [] → clear_history h true = []) ∧
      clear_history h false = [] := by
  intro h
  refine ⟨?_, ?_, ?_, ?_⟩
  · intro f rest hh hrole
    subst hh
    simp [clear_history, hrole]
  · intro f rest hh hrole
    subst hh
    simp [clear_history, hrole]
  · intro hh
    subst hh
    rfl
  · cases h with
    | nil => rfl
    | cons f rest => simp [clear_history]

/-- C9 witness: concrete evaluations of all three cases. -/
theorem C9_witness :
    clear_history [sysT, userT 0] true = [sysT] ∧
    clear_history [userT 0] true = [] ∧
    clear_history [] true = [] ∧
    clear_history [sysT, userT 0] false = [] :=
  ⟨((C9_clear_history_spec [sysT, userT 0]).1 sysT [userT 0] rfl rfl).1,
   (C9_clear_history_spec [userT 0]).2.1 (userT 0) [] rfl (by decide),
   (C9_clear_history_spec []).2.2.1 rfl,
   (C9_clear_history_spec [sysT, userT 0]).2.2.2⟩

/-- C5: `get_response` with `add_to_history` true hitting an HTTP 400
bad-request error appends the apology turn (after the user turn) and then
clears the history keeping only a leading system turn, or empties it when
no leading system turn exists; the call still returns an ordinary error
result rather than propagating the failure. -/
theorem C5_http400_resets_history :
    ∀ (h : List Turn) (user : List Char) (sp : Option (List Char))
      (emsg : List Char),
      (get_response h user sp true (Outcome.httpError 400 emsg)).history =
        clear_history
          (add_to_history
            (if pyStrip user ≠ [] then add_to_history h ⟨Role.user, user⟩ else h)
            ⟨Role.assistant, transportApology emsg⟩) true ∧
      (get_response h user sp true (Outcome.httpError 400 emsg)).text =
        transportApology emsg ∧
      (get_response h user sp true (Outcome.httpError 400 emsg)).isError = true ∧
      (get_response h user sp true (Outcome.httpError 400 emsg)).history.length ≤ 1 ∧
      (∀ t ∈ (get_response h user sp true (Outcome.httpError 400 emsg)).history,
        t.role = Role.system) ∧
      (∀ f rest,
        add_to_history
            (if pyStrip user ≠ [] then add_to_history h ⟨Role.user, user⟩ else h)
            ⟨Role.assistant, transportApology emsg⟩ = f :: rest →
        f.role = Role.system →
        (get_response h user sp true (Outcome.httpError 400 emsg)).history = [f]) ∧
      (∀ f rest,
        add_to_history
            (if pyStrip user ≠ [] then add_to_history h ⟨Role.user, user⟩ else h)
            ⟨Role.assistant, transportApology emsg⟩ = f :: rest →
        f.role ≠ Role.system →
        (get_response h user sp true (Outcome.httpError 400 emsg)).history = []) := by
  intro h user sp emsg
  have hh :
      (get_response h user sp true (Outcome.httpError 400 emsg)).history =
        clear_history
          (add_to_history
            (if pyStrip user ≠ [] then add_to_history h ⟨Role.user, user⟩ else h)
            ⟨Role.assistant, transportApology emsg⟩) true := by
    simp [get_response]
  refine ⟨hh, by simp [get_response], by simp [get_response], ?_, ?_, ?_, ?_⟩
  · rw [hh]
    cases hs :
        add_to_history
          (if pyStrip user ≠ [] then add_to_history h ⟨Role.user, user⟩ else h)
          ⟨Role.assistant, transportApology emsg⟩ with
    | nil => simp [clear_history]
    | cons f rest => by_cases hr : f.role = Role.system <;> simp [clear_history, hr]
  · rw [hh]
    cases hs :
        add_to_history
          (if pyStrip user ≠ [] then add_to_history h ⟨Role.user, user⟩ else h)
          ⟨Role.assistant, transportApology emsg⟩ with
    | nil => simp [clear_history]
    | cons f rest =>
        by_cases hr : f.role = Role.system
        · simp [clear_history, hr]
        · simp [clear_history, hr]
  · intro f rest hs hr
    rw [hh, hs]
    simp [clear_history, hr]
  · intro f rest hs hr
    rw [hh, hs]
    simp [clear_history, hr]

/-- C5 witness: with a leading system turn the history is reset to exactly
that turn; with none it is emptied. -/
theorem C5_witness :
    (get_response [sysT] (strL "hi") none true
      (Outcome.httpError 400 (strL "bad"))).history = [sysT] ∧
    (get_response [userT 0] (strL "hi") none true
      (Outcome.httpError 400 (strL "bad"))).history = [] := by
  constructor
  · exact (C5_http400_resets_history [sysT] (strL "hi") none (strL "bad")).2.2.2.2.2.1
      sysT [⟨Role.user, strL "hi"⟩, ⟨Role.assistant, transportApology (strL "bad")⟩]
      (by decide) rfl
  · exact (C5_http400_resets_history [userT 0] (strL "hi") none (strL "bad")).2.2.2.2.2.2
      (userT 0) [⟨Role.user, strL "hi"⟩, ⟨Role.assistant, transportApology (strL "bad")⟩]
      (by decide) (by decide)

/-- C8 counterexample: with `add_to_history` false, a failure that is not a
`requests` exception (the generic handler) still appends the apology turn to
the history — here the history grows from empty to one assistant turn,
so it is not left unchanged for every outcome. -/
theorem C8_counterexample :
    (get_response [] (strL "hello") none false
      (Outcome.unknownError (strL "boom"))).history =
      [⟨Role.assistant, genericApology⟩] := by
  decide

/-- C8 amended: with `add_to_history` false the history is unchanged on
success and on every `requests`-level failure (transport errors and HTTP
errors, including 400), and the user turn is only added transiently to the
outbound message list; but on any other failure the generic-handler apology
turn is appended to the history even though `add_to_history` is false. -/
theorem C8_amended :
    ∀ (h : List Turn) (user : List Char) (sp : Option (List Char)) (out : Outcome),
      ((∀ m, out ≠ Outcome.unknownError m) →
        (get_response h user sp false out).history = h) ∧
      ((get_response h user sp false out).messages =
        (match sp with | some s => [⟨Role.system, s⟩] | none => []) ++ h ++
          (if pyStrip user ≠ [] then [⟨Role.user, user⟩] else [])) ∧
      (∀ m, out = Outcome.unknownError m →
        (get_response h user sp false out).history =
          add_to_history h ⟨Role.assistant, genericApology⟩) := by
  intro h user sp out
  refine ⟨?_, ?_, ?_⟩
  · intro hne
    cases out with
    | success a => simp [get_response]
    | httpError s e => simp [get_response]
    | transportError e => simp [get_response]
    | unknownError e => exact absurd rfl (hne e)
  · cases out <;> simp [get_response]
  · intro m hm
    subst hm
    simp [get_response]

/-- C8 witness: a transport failure with `add_to_history` false leaves a
concrete history unchanged, with the user turn only in the message list. -/
theorem C8_witness :
    (get_response [sysT] (strL "hello") none false
      (Outcome.transportError (strL "down"))).history = [sysT] ∧
    (get_response [sysT] (strL "hello") none false
      (Outcome.transportError (strL "down"))).messages =
      [sysT, ⟨Role.user, strL "hello"⟩] := by
  constructor
  · exact (C8_amended [sysT] (strL "hello") none
      (Outcome.transportError (strL "down"))).1
      (fun m hcontra => Outcome.noConfusion hcontra)
  · have h2 := (C8_amended [sysT] (strL "hello") none
      (Outcome.transportError (strL "down"))).2.1
    rw [h2]
    decide

/-! ## Streaming orchestrator: basic lemmas -/

lemma mkState_buffer (b f : List Char) (c : Nat) : (SState.mk b f c).buffer = b := rfl

lemma mkState_full (b f : List Char) (c : Nat) : (SState.mk b f c).full = f := rfl

lemma mkState_count (b f : List Char) (c : Nat) : (SState.mk b f c).count = c := rfl

lemma runTokens_nil (tts : List Char → Option Audio) (st : SState) :
    runTokens tts [] st = ([], st, false) := rfl

lemma runTokens_cons (tts : List Char → Option Audio) (tok : List Char)
    (rest : List (List Char)) (st : SState) :
    runTokens tts (tok :: rest) st =
      if containsSub markerNOREPLY (normalizeForMarker (st.full ++ tok)) then
        ([Event.ttsEndNoTotal, Event.llmResponse (st.full ++ tok) RespMeta.noReply],
          ⟨st.buffer ++ tok, st.full ++ tok, st.count⟩, true)
      else if is_sentence_complete (st.buffer ++ tok) ∧
          10 < (pyStrip (st.buffer ++ tok)).length then
        ((match tts (pyStrip (st.buffer ++ tok)) with
          | some audio => [Event.ttsChunk (st.count + 1) audio]
          | none => []) ++
            (runTokens tts rest ⟨[], st.full ++ tok, st.count + 1⟩).1,
          (runTokens tts rest ⟨[], st.full ++ tok, st.count + 1⟩).2)
      else runTokens tts rest ⟨st.buffer ++ tok, st.full ++ tok, st.count⟩ := rfl

lemma runTokens_state_indep (tts1 tts2 : List Char → Option Audio) :
    ∀ (toks : List (List Char)) (st : SState),
      (runTokens tts1 toks st).2 = (runTokens tts2 toks st).2 := by
  intro toks
  induction toks with
  | nil => intro st; rfl
  | cons tok rest ih =>
      intro st
      rw [runTokens_cons, runTokens_cons]
      by_cases h1 : containsSub markerNOREPLY (normalizeForMarker (st.full ++ tok)) = true
      · rw [if_pos h1, if_pos h1]
      · rw [if_neg h1, if_neg h1]
        by_cases h2 : is_sentence_complete (st.buffer ++ tok) ∧
            10 < (pyStrip (st.buffer ++ tok)).length
        · rw [if_pos h2, if_pos h2]
          exact ih _
        · rw [if_neg h2, if_neg h2]
          exact ih _

lemma runTokens_full (tts : List Char → Option Audio) :
    ∀ (toks : List (List Char)) (st : SState),
      (runTokens tts toks st).2.2 = false →
      (runTokens tts toks st).2.1.full = st.full ++ toks.flatten := by
  intro toks
  induction toks with
  | nil => intro st _; simp [runTokens_nil]
  | cons tok rest ih =>
      intro st hab
      rw [runTokens_cons] at hab ⊢
      by_cases h1 : containsSub markerNOREPLY (normalizeForMarker (st.full ++ tok)) = true
      · rw [if_pos h1] at hab
        simp at hab
      · rw [if_neg h1] at hab ⊢
        by_cases h2 : is_sentence_complete (st.buffer ++ tok) ∧
            10 < (pyStrip (st.buffer ++ tok)).length
        · rw [if_pos h2] at hab ⊢
          have := ih ⟨[], st.full ++ tok, st.count + 1⟩ hab
          simp only [this]
          simp [List.flatten_cons, List.append_assoc]
        · rw [if_neg h2] at hab ⊢
          have := ih ⟨st.buffer ++ tok, st.full ++ tok, st.count⟩ hab
          simp only [this]
          simp [List.flatten_cons, List.append_assoc]

lemma startsWithB_append (l2 : List Char) :
    ∀ (n l : List Char), startsWithB n l = true → startsWithB n (l ++ l2) = true := by
  intro n
  induction n with
  | nil => intro l _; rfl
  | cons a as ih =>
      intro l hl
      cases l with
      | nil => simp [startsWithB] at hl
      | cons b bs =>
          simp only [startsWithB, Bool.and_eq_true] at hl
          simp only [List.cons_append, startsWithB, Bool.and_eq_true]
          exact ⟨hl.1, ih bs hl.2⟩

lemma containsSub_append (n h2 : List Char) :
    ∀ h : List Char, containsSub n h = true → containsSub n (h ++ h2) = true := by
  intro h
  induction h with
  | nil =>
      intro hc
      simp only [containsSub] at hc
      cases n with
      | nil =>
          cases h2 with
          | nil => rfl
          | cons c rest => simp [containsSub, startsWithB]
      | cons a as => simp [startsWithB] at hc
  | cons c rest ih =>
      intro hc
      simp only [containsSub, Bool.or_eq_true] at hc
      simp only [List.cons_append, containsSub, Bool.or_eq_true]
      rcases hc with hc | hc
      · exact Or.inl (startsWithB_append h2 n _ hc)
      · exact Or.inr (ih hc)

lemma normalizeForMarker_append (a b : List Char) :
    normalizeForMarker (a ++ b) = normalizeForMarker a ++ normalizeForMarker b := by
  simp [normalizeForMarker, List.filter_append]

lemma containsSub_norm_mono {a : List Char} (b : List Char)
    (h : containsSub markerNOREPLY (normalizeForMarker a) = true) :
    containsSub markerNOREPLY (normalizeForMarker (a ++ b)) = true := by
  rw [normalizeForMarker_append]
  exact containsSub_append _ _ _ h

lemma runTokens_abort_iff (tts : List Char → Option Audio) :
    ∀ (toks : List (List Char)) (st : SState),
      containsSub markerNOREPLY (normalizeForMarker st.full) = false →
      ((runTokens tts toks st).2.2 = true ↔
        containsSub markerNOREPLY
          (normalizeForMarker (st.full ++ toks.flatten)) = true) := by
  intro toks
  induction toks with
  | nil =>
      intro st hm
      rw [runTokens_nil]
      simp [hm]
  | cons tok rest ih =>
      intro st hm
      rw [runTokens_cons]
      by_cases h1 : containsSub markerNOREPLY (normalizeForMarker (st.full ++ tok)) = true
      · rw [if_pos h1]
        have : containsSub markerNOREPLY
            (normalizeForMarker (st.full ++ (tok :: rest).flatten)) = true := by
          have e : st.full ++ (tok :: rest).flatten = (st.full ++ tok) ++ rest.flatten := by
            simp [List.flatten_cons, List.append_assoc]
          rw [e]
          exact containsSub_norm_mono rest.flatten h1
        simp only [List.flatten_cons] at this
        simp [this]
      · rw [if_neg h1]
        have h1f : containsSub markerNOREPLY (normalizeForMarker (st.full ++ tok)) = false :=
          Bool.eq_false_iff.mpr h1
        have e : st.full ++ (tok :: rest).flatten = (st.full ++ tok) ++ rest.flatten := by
          simp [List.flatten_cons, List.append_assoc]
        rw [e]
        by_cases h2 : is_sentence_complete (st.buffer ++ tok) ∧
            10 < (pyStrip (st.buffer ++ tok)).length
        · rw [if_pos h2]
          exact ih ⟨[], st.full ++ tok, st.count + 1⟩ h1f
        · rw [if_neg h2]
          exact ih ⟨st.buffer ++ tok, st.full ++ tok, st.count⟩ h1f

lemma abortsOn_eq_marker (tokens : List (List Char)) :
    abortsOn tokens = true ↔
      containsSub markerNOREPLY (normalizeForMarker tokens.flatten) = true := by
  unfold abortsOn
  have h := runTokens_abort_iff (fun _ => none) tokens ⟨[], [], 0⟩ (by decide)
  simpa using h

lemma runTokens_flag_eq_abortsOn (tts : List Char → Option Audio)
    (tokens : List (List Char)) :
    (runTokens tts tokens ⟨[], [], 0⟩).2.2 = abortsOn tokens := by
  unfold abortsOn
  rw [runTokens_state_indep tts (fun _ => none) tokens ⟨[], [], 0⟩]

/-! ## Streaming orchestrator: chunk sequence numbers -/

lemma chunkNums_append :
    ∀ a b : List Event, chunkNums (a ++ b) = chunkNums a ++ chunkNums b := by
  intro a b
  induction a with
  | nil => rfl
  | cons e a2 ih => cases e <;> simp [chunkNums, ih]

lemma runTokens_chunkNums_bounds (tts : List Char → Option Audio) :
    ∀ (toks : List (List Char)) (st : SState),
      (∀ n ∈ chunkNums (runTokens tts toks st).1,
        st.count < n ∧ n ≤ (runTokens tts toks st).2.1.count) ∧
      List.Chain' (· < ·) (chunkNums (runTokens tts toks st).1) ∧
      st.count ≤ (runTokens tts toks st).2.1.count := by
  intro toks
  induction toks with
  | nil =>
      intro st
      rw [runTokens_nil]
      exact ⟨by simp [chunkNums], by simp [chunkNums], le_refl _⟩
  | cons tok rest ih =>
      intro st
      rw [runTokens_cons]
      by_cases h1 : containsSub markerNOREPLY (normalizeForMarker (st.full ++ tok)) = true
      · rw [if_pos h1]
        exact ⟨by simp [chunkNums], by simp [chunkNums], le_refl _⟩
      · rw [if_neg h1]
        by_cases h2 : is_sentence_complete (st.buffer ++ tok) ∧
            10 < (pyStrip (st.buffer ++ tok)).length
        · rw [if_pos h2]
          obtain ⟨ihb, ihc, ihle⟩ := ih ⟨[], st.full ++ tok, st.count + 1⟩
          simp only [mkState_count] at ihb ihle
          cases hts : tts (pyStrip (st.buffer ++ tok)) with
          | none =>
              simp only [hts, List.nil_append]
              refine ⟨?_, ihc, ?_⟩
              · intro n hn
                obtain ⟨hlt, hle⟩ := ihb n hn
                exact ⟨by omega, hle⟩
              · exact le_trans (Nat.le_succ _) ihle
          | some audio =>
              simp only [hts, List.cons_append, List.nil_append, chunkNums]
              refine ⟨?_, ?_, ?_⟩
              · intro n hn
                rcases List.mem_cons.mp hn with hn | hn
                · subst hn
                  exact ⟨Nat.lt_succ_self _, ihle⟩
                · obtain ⟨hlt, hle⟩ := ihb n hn
                  exact ⟨by omega, hle⟩
              · rw [List.chain'_cons']
                refine ⟨?_, ihc⟩
                intro b hb
                have hbmem : b ∈ chunkNums
                    (runTokens tts rest ⟨[], st.full ++ tok, st.count + 1⟩).1 :=
                  List.mem_of_mem_head? hb
                exact (ihb b hbmem).1
              · exact le_trans (Nat.le_succ _) ihle
        · rw [if_neg h2]
          exact ih ⟨st.buffer ++ tok, st.full ++ tok, st.count⟩

lemma runTokens_chunkNums_range (tts : List Char → Option Audio)
    (hts : ∀ s, tts s ≠ none) :
    ∀ (toks : List (List Char)) (st : SState),
      chunkNums (runTokens tts toks st).1 =
        List.range' (st.count + 1) ((runTokens tts toks st).2.1.count - st.count) := by
  intro toks
  induction toks with
  | nil =>
      intro st
      rw [runTokens_nil]
      simp [chunkNums]
  | cons tok rest ih =>
      intro st
      rw [runTokens_cons]
      by_cases h1 : containsSub markerNOREPLY (normalizeForMarker (st.full ++ tok)) = true
      · rw [if_pos h1]
        simp [chunkNums]
      · rw [if_neg h1]
        by_cases h2 : is_sentence_complete (st.buffer ++ tok) ∧
            10 < (pyStrip (st.buffer ++ tok)).length
        · rw [if_pos h2]
          cases hts2 : tts (pyStrip (st.buffer ++ tok)) with
          | none => exact absurd hts2 (hts _)
          | some audio =>
              simp only [hts2, List.cons_append, List.nil_append, List.append_eq, chunkNums]
              have ihle := (runTokens_chunkNums_bounds tts rest
                ⟨[], st.full ++ tok, st.count + 1⟩).2.2
              simp only [mkState_count] at ihle
              rw [ih ⟨[], st.full ++ tok, st.count + 1⟩]
              simp only [mkState_count]
              have e : (runTokens tts rest ⟨[], st.full ++ tok, st.count + 1⟩).2.1.count -
                  st.count =
                  ((runTokens tts rest ⟨[], st.full ++ tok, st.count + 1⟩).2.1.count -
                    (st.count + 1)) + 1 := by
                omega
              rw [e, List.range'_succ]
        · rw [if_neg h2]
          exact ih ⟨st.buffer ++ tok, st.full ++ tok, st.count⟩

/-! ## Streaming orchestrator: abort-path structure -/

lemma runTokens_abort_struct (tts : List Char → Option Audio) :
    ∀ (toks : List (List Char)) (st : SState),
      containsSub markerNOREPLY (normalizeForMarker st.full) = false →
      (runTokens tts toks st).2.2 = true →
      ∃ k evs0,
        k ≤ toks.length ∧
        (runTokens tts toks st).1 =
          evs0 ++ [Event.ttsEndNoTotal,
            Event.llmResponse (st.full ++ (toks.take k).flatten) RespMeta.noReply] ∧
        evs0.all isChunkEv = true ∧
        containsSub markerNOREPLY
          (normalizeForMarker (st.full ++ (toks.take k).flatten)) = true ∧
        (∀ j < k, containsSub markerNOREPLY
          (normalizeForMarker (st.full ++ (toks.take j).flatten)) = false) := by
  intro toks
  induction toks with
  | nil =>
      intro st _ hab
      rw [runTokens_nil] at hab
      simp at hab
  | cons tok rest ih =>
      intro st hm hab
      rw [runTokens_cons] at hab ⊢
      by_cases h1 : containsSub markerNOREPLY (normalizeForMarker (st.full ++ tok)) = true
      · rw [if_pos h1] at hab ⊢
        refine ⟨1, [], by simp, ?_, rfl, ?_, ?_⟩
        · simp [List.flatten_cons]
        · simpa [List.flatten_cons] using h1
        · intro j hj
          interval_cases j
          simpa using hm
      · rw [if_neg h1] at hab ⊢
        have h1f : containsSub markerNOREPLY (normalizeForMarker (st.full ++ tok)) = false :=
          Bool.eq_false_iff.mpr h1
        by_cases h2 : is_sentence_complete (st.buffer ++ tok) ∧
            10 < (pyStrip (st.buffer ++ tok)).length
        · rw [if_pos h2] at hab ⊢
          obtain ⟨k, evs0, hk, hevs, hall, hcont, hmin⟩ :=
            ih ⟨[], st.full ++ tok, st.count + 1⟩ h1f hab
          refine ⟨k + 1,
            (match tts (pyStrip (st.buffer ++ tok)) with
              | some audio => [Event.ttsChunk (st.count + 1) audio]
              | none => []) ++ evs0, by simpa using hk, ?_, ?_, ?_, ?_⟩
          · rw [List.append_assoc, hevs]
            simp [List.flatten_cons, List.append_assoc]
          · cases tts (pyStrip (st.buffer ++ tok)) with
            | none => simpa using hall
            | some audio => simpa [isChunkEv] using hall
          · simpa [List.flatten_cons, List.append_assoc] using hcont
          · intro j hj
            cases j with
            | zero => simpa using hm
            | succ j2 =>
                have hj2 : j2 < k := by omega
                have := hmin j2 hj2
                simpa [List.flatten_cons, List.append_assoc] using this
        · rw [if_neg h2] at hab ⊢
          obtain ⟨k, evs0, hk, hevs, hall, hcont, hmin⟩ :=
            ih ⟨st.buffer ++ tok, st.full ++ tok, st.count⟩ h1f hab
          refine ⟨k + 1, evs0, by simpa using hk, ?_, hall, ?_, ?_⟩
          · rw [hevs]
            simp [List.flatten_cons, List.append_assoc]
          · simpa [List.flatten_cons, List.append_assoc] using hcont
          · intro j hj
            cases j with
            | zero => simpa using hm
            | succ j2 =>
                have hj2 : j2 < k := by omega
                have := hmin j2 hj2
                simpa [List.flatten_cons, List.append_assoc] using this

/-! ## Streaming orchestrator: a synthesis failure drops only its own chunk -/

lemma stream_eq (tts : List Char → Option Audio) (tokens : List (List Char)) :
    stream_speech_with_buffering tts tokens =
      if (runTokens tts tokens ⟨[], [], 0⟩).2.2 = true then
        Event.ttsStart :: (runTokens tts tokens ⟨[], [], 0⟩).1
      else
        Event.ttsStart :: (runTokens tts tokens ⟨[], [], 0⟩).1 ++
          (finishEvents tts (runTokens tts tokens ⟨[], [], 0⟩).2.1).1 := rfl

lemma runTokens_filterMap (tts : List Char → Option Audio) :
    ∀ (toks : List (List Char)) (st : SState),
      (runTokens tts toks st).1 =
        ((runTokens okTTS toks st).1).filterMap (transferTTS tts) ∧
      (runTokens tts toks st).2 = (runTokens okTTS toks st).2 := by
  intro toks
  induction toks with
  | nil => intro st; exact ⟨by simp [runTokens_nil], rfl⟩
  | cons tok rest ih =>
      intro st
      rw [runTokens_cons, runTokens_cons]
      by_cases h1 : containsSub markerNOREPLY (normalizeForMarker (st.full ++ tok)) = true
      · rw [if_pos h1, if_pos h1]
        exact ⟨by simp [transferTTS], rfl⟩
      · rw [if_neg h1, if_neg h1]
        by_cases h2 : is_sentence_complete (st.buffer ++ tok) ∧
            10 < (pyStrip (st.buffer ++ tok)).length
        · rw [if_pos h2, if_pos h2]
          obtain ⟨ihe, ihs⟩ := ih ⟨[], st.full ++ tok, st.count + 1⟩
          refine ⟨?_, ihs⟩
          cases hts : tts (pyStrip (st.buffer ++ tok)) with
          | none => simp [okTTS, transferTTS, hts, ihe]
          | some a => simp [okTTS, transferTTS, hts, ihe]
        · rw [if_neg h2, if_neg h2]
          exact ih _

lemma finishEvents_filterMap (tts : List Char → Option Audio) (st : SState) :
    (finishEvents tts st).1 = ((finishEvents okTTS st).1).filterMap (transferTTS tts) ∧
    (finishEvents tts st).2 = (finishEvents okTTS st).2 := by
  unfold finishEvents
  by_cases hb : pyStrip st.buffer ≠ []
  · rw [if_pos hb, if_pos hb]
    refine ⟨?_, rfl⟩
    cases hts : tts (pyStrip st.buffer) with
    | none => simp [okTTS, transferTTS, hts]
    | some a => simp [okTTS, transferTTS, hts]
  · rw [if_neg hb, if_neg hb]
    exact ⟨by simp [transferTTS], rfl⟩

lemma stream_filterMap (tts : List Char → Option Audio) (tokens : List (List Char)) :
    stream_speech_with_buffering tts tokens =
      (stream_speech_with_buffering okTTS tokens).filterMap (transferTTS tts) := by
  rw [stream_eq, stream_eq]
  obtain ⟨ihe, ihs⟩ := runTokens_filterMap tts tokens ⟨[], [], 0⟩
  by_cases hab : (runTokens okTTS tokens ⟨[], [], 0⟩).2.2 = true
  · rw [if_pos (by rw [ihs]; exact hab), if_pos hab]
    simp [transferTTS, ihe]
  · rw [if_neg (by rw [ihs]; exact hab), if_neg hab]
    have hst : (runTokens tts tokens ⟨[], [], 0⟩).2.1 =
        (runTokens okTTS tokens ⟨[], [], 0⟩).2.1 := by rw [ihs]
    obtain ⟨fe, _⟩ := finishEvents_filterMap tts ((runTokens okTTS tokens ⟨[], [], 0⟩).2.1)
    rw [hst]
    simp [transferTTS, List.filterMap_append, ihe, fe]

lemma finishEvents_struct (tts : List Char → Option Audio) (st : SState) :
    ∃ flush t,
      (finishEvents tts st).1 =
        flush ++ [Event.ttsEnd t, Event.llmResponse st.full (RespMeta.streaming t)] ∧
      flush.all isChunkEv = true ∧
      (finishEvents tts st).2 = t := by
  unfold finishEvents
  by_cases hb : pyStrip st.buffer ≠ []
  · rw [if_pos hb]
    cases hts : tts (pyStrip st.buffer) with
    | none => exact ⟨[], st.count + 1, by simp, rfl, rfl⟩
    | some a =>
        exact ⟨[Event.ttsChunkFinal (st.count + 1) a], st.count + 1,
          by simp, by simp [isChunkEv], rfl⟩
  · rw [if_neg hb]
    exact ⟨[], st.count, by simp, rfl, rfl⟩

lemma finishEvents_chunkNums (tts : List Char → Option Audio) (st : SState) :
    chunkNums (finishEvents tts st).1 = [] ∨
      chunkNums (finishEvents tts st).1 = [st.count + 1] := by
  unfold finishEvents
  by_cases hb : pyStrip st.buffer ≠ []
  · rw [if_pos hb]
    cases hts : tts (pyStrip st.buffer) with
    | none => exact Or.inl (by simp [chunkNums])
    | some a => exact Or.inr (by simp [chunkNums])
  · rw [if_neg hb]
    exact Or.inl (by simp [chunkNums])

lemma stream_last_llm (tts : List Char → Option Audio) (tokens : List (List Char)) :
    ∃ t m, (stream_speech_with_buffering tts tokens).getLast? =
      some (Event.llmResponse t m) := by
  rw [stream_eq]
  by_cases hab : (runTokens tts tokens ⟨[], [], 0⟩).2.2 = true
  · rw [if_pos hab]
    obtain ⟨k, evs0, _, hevs, _, _, _⟩ :=
      runTokens_abort_struct tts tokens ⟨[], [], 0⟩ (by decide) hab
    refine ⟨(tokens.take k).flatten, RespMeta.noReply, ?_⟩
    rw [hevs]
    have e : Event.ttsStart ::
        (evs0 ++ [Event.ttsEndNoTotal,
          Event.llmResponse ((⟨[], [], 0⟩ : SState).full ++ (tokens.take k).flatten)
            RespMeta.noReply]) =
        (Event.ttsStart :: evs0 ++ [Event.ttsEndNoTotal]) ++
          [Event.llmResponse ((tokens.take k).flatten) RespMeta.noReply] := by
      simp [mkState_full]
    rw [e, List.getLast?_concat]
  · rw [if_neg hab]
    obtain ⟨flush, t, hf, _, _⟩ :=
      finishEvents_struct tts (runTokens tts tokens ⟨[], [], 0⟩).2.1
    refine ⟨(runTokens tts tokens ⟨[], [], 0⟩).2.1.full, RespMeta.streaming t, ?_⟩
    rw [hf]
    have e : Event.ttsStart :: (runTokens tts tokens ⟨[], [], 0⟩).1 ++
        (flush ++ [Event.ttsEnd t,
          Event.llmResponse (runTokens tts tokens ⟨[], [], 0⟩).2.1.full
            (RespMeta.streaming t)]) =
        (Event.ttsStart :: (runTokens tts tokens ⟨[], [], 0⟩).1 ++ flush ++
          [Event.ttsEnd t]) ++
          [Event.llmResponse (runTokens tts tokens ⟨[], [], 0⟩).2.1.full
            (RespMeta.streaming t)] := by
      simp [List.append_assoc]
    rw [e, List.getLast?_concat]

/-! ## Claims C1, C2, C6, C7, C10 -/

/-- C1 counterexample: when the first sentence's synthesis fails, the run's
only `TTS_CHUNK` carries sequence number 2 — the sequence does not start at
1, refuting the claim for runs with synthesis failures. -/
theorem C1_counterexample :
    chunkNums (stream_speech_with_buffering failTTS toksGap) = [2] := by
  decide

/-- C1 amended: `TTS_CHUNK` sequence numbers are strictly increasing in every
run; they start at 1 with no gaps whenever no synthesis call fails (a failed
sentence's number is skipped, since the counter still advances); and once an
abort is triggered no `TTS_CHUNK` follows — the only events of an aborted run
after the abort `TTS_END` is the final `LLM_RESPONSE`, everything before it
being chunks. -/
theorem C1_amended :
    (∀ (tts : List Char → Option Audio) (tokens : List (List Char)),
      List.Chain' (· < ·) (chunkNums (stream_speech_with_buffering tts tokens))) ∧
    (∀ (tts : List Char → Option Audio) (tokens : List (List Char)),
      (∀ s, tts s ≠ none) →
      ∃ k, chunkNums (stream_speech_with_buffering tts tokens) = List.range' 1 k) ∧
    (∀ (tts : List Char → Option Audio) (tokens : List (List Char)),
      abortsOn tokens = true →
      ∃ evs0 text,
        stream_speech_with_buffering tts tokens =
          Event.ttsStart :: evs0 ++
            [Event.ttsEndNoTotal, Event.llmResponse text RespMeta.noReply] ∧
        evs0.all isChunkEv = true) := by
  refine ⟨?_, ?_, ?_⟩
  · intro tts tokens
    rw [stream_eq]
    obtain ⟨hbounds, hchain, _⟩ := runTokens_chunkNums_bounds tts tokens ⟨[], [], 0⟩
    by_cases hab : (runTokens tts tokens ⟨[], [], 0⟩).2.2 = true
    · rw [if_pos hab]
      simpa [chunkNums] using hchain
    · rw [if_neg hab]
      have hsplit : chunkNums (Event.ttsStart :: (runTokens tts tokens ⟨[], [], 0⟩).1 ++
          (finishEvents tts (runTokens tts tokens ⟨[], [], 0⟩).2.1).1) =
          chunkNums (runTokens tts tokens ⟨[], [], 0⟩).1 ++
            chunkNums (finishEvents tts (runTokens tts tokens ⟨[], [], 0⟩).2.1).1 := by
        rw [List.cons_append]
        show chunkNums ((runTokens tts tokens ⟨[], [], 0⟩).1 ++ _) = _
        rw [chunkNums_append]
      rw [hsplit]
      rcases finishEvents_chunkNums tts (runTokens tts tokens ⟨[], [], 0⟩).2.1 with hf | hf
      · rw [hf, List.append_nil]
        exact hchain
      · rw [hf]
        refine List.Chain'.append hchain (List.chain'_singleton _) ?_
        intro x hx y hy
        simp only [List.head?_cons, Option.mem_def, Option.some.injEq] at hy
        subst hy
        have hxmem := List.mem_of_mem_getLast? hx
        have := (hbounds x hxmem).2
        omega
  · intro tts tokens hts
    rw [stream_eq]
    have hmid := runTokens_chunkNums_range tts hts tokens ⟨[], [], 0⟩
    simp only [mkState_count, Nat.zero_add, Nat.sub_zero] at hmid
    by_cases hab : (runTokens tts tokens ⟨[], [], 0⟩).2.2 = true
    · rw [if_pos hab]
      refine ⟨(runTokens tts tokens ⟨[], [], 0⟩).2.1.count, ?_⟩
      simpa [chunkNums] using hmid
    · rw [if_neg hab]
      have hsplit : chunkNums (Event.ttsStart :: (runTokens tts tokens ⟨[], [], 0⟩).1 ++
          (finishEvents tts (runTokens tts tokens ⟨[], [], 0⟩).2.1).1) =
          chunkNums (runTokens tts tokens ⟨[], [], 0⟩).1 ++
            chunkNums (finishEvents tts (runTokens tts tokens ⟨[], [], 0⟩).2.1).1 := by
        rw [List.cons_append]
        show chunkNums ((runTokens tts tokens ⟨[], [], 0⟩).1 ++ _) = _
        rw [chunkNums_append]
      rw [hsplit, hmid]
      rcases finishEvents_chunkNums tts (runTokens tts tokens ⟨[], [], 0⟩).2.1 with hf | hf
      · rw [hf, List.append_nil]
        exact ⟨_, rfl⟩
      · rw [hf]
        refine ⟨(runTokens tts tokens ⟨[], [], 0⟩).2.1.count + 1, ?_⟩
        rw [List.range'_concat]
        simp [Nat.add_comm]
  · intro tts tokens hab
    have hflag : (runTokens tts tokens ⟨[], [], 0⟩).2.2 = true := by
      rw [runTokens_flag_eq_abortsOn tts tokens]
      exact hab
    rw [stream_eq, if_pos hflag]
    obtain ⟨k, evs0, _, hevs, hall, _, _⟩ :=
      runTokens_abort_struct tts tokens ⟨[], [], 0⟩ (by decide) hflag
    refine ⟨evs0, (tokens.take k).flatten, ?_, hall⟩
    rw [hevs]
    simp [mkState_full]

/-- C1 witness: a clean two-sentence run yields sequence numbers `[1, 2]`,
and an aborting run is `TTS_START`, chunks, abort `TTS_END`, `LLM_RESPONSE`
with nothing after. -/
theorem C1_witness :
    (∃ k, chunkNums (stream_speech_with_buffering okTTS toksGap) =
      List.range' 1 k) ∧
    (∃ evs0 text,
      stream_speech_with_buffering okTTS [strL "NO_REPLY"] =
        Event.ttsStart :: evs0 ++
          [Event.ttsEndNoTotal, Event.llmResponse text RespMeta.noReply] ∧
      evs0.all isChunkEv = true) :=
  ⟨C1_amended.2.1 okTTS toksGap (fun s => by simp [okTTS]),
   C1_amended.2.2 okTTS [strL "NO_REPLY"] (by decide)⟩

/-- C2 counterexample, three parts.  (1) On the token `"NO_REPLY"` the abort
path's `TTS_END` carries no `total_sentences` field at all, not
`totalSentences = sentenceCount`.  (2) On the single token
`"NO_\nREPLY, sure."` the claim's normalization (uppercase, strip ALL
whitespace) contains the marker, yet the run does not abort — the code
removes only spaces — and ends as an ordinary streamed reply.  (3) When the
marker arrives after a completed sentence, an audio chunk for the reply has
already been emitted before the abort. -/
theorem C2_counterexample :
    stream_speech_with_buffering okTTS [strL "NO_REPLY"] =
      [Event.ttsStart, Event.ttsEndNoTotal,
       Event.llmResponse (strL "NO_REPLY") RespMeta.noReply] ∧
    (stream_speech_with_buffering okTTS [strL "NO_\nREPLY, sure."]).getLast? =
      some (Event.llmResponse (strL "NO_\nREPLY, sure.") (RespMeta.streaming 1)) ∧
    stream_speech_with_buffering okTTS
        [strL "This is a long sentence.", strL " NO_REPLY"] =
      [Event.ttsStart,
       Event.ttsChunk 1 (strL "This is a long sentence."),
       Event.ttsEndNoTotal,
       Event.llmResponse (strL "This is a long sentence. NO_REPLY")
         RespMeta.noReply] := by
  refine ⟨by decide, by decide, by decide⟩

/-- C2 amended: as soon as the accumulated text, uppercased and with space
characters (only) removed, contains `NO_REPLY`, the orchestrator emits the
abort `TTS_END` — which carries no `totalSentences` field — then
`LLM_RESPONSE` with the accumulated text and noReply metadata, and
terminates, consuming no further tokens and emitting no further audio chunk
(chunks for sentences completed before the marker appeared remain). -/
theorem C2_amended :
    ∀ (tts : List Char → Option Audio) (tokens : List (List Char)),
      containsSub markerNOREPLY (normalizeForMarker tokens.flatten) = true →
      ∃ k evs0,
        k ≤ tokens.length ∧
        stream_speech_with_buffering tts tokens =
          Event.ttsStart :: evs0 ++
            [Event.ttsEndNoTotal,
             Event.llmResponse ((tokens.take k).flatten) RespMeta.noReply] ∧
        evs0.all isChunkEv = true ∧
        containsSub markerNOREPLY
          (normalizeForMarker ((tokens.take k).flatten)) = true ∧
        (∀ j < k, containsSub markerNOREPLY
          (normalizeForMarker ((tokens.take j).flatten)) = false) := by
  intro tts tokens hm
  have hab : abortsOn tokens = true := (abortsOn_eq_marker tokens).mpr hm
  have hflag : (runTokens tts tokens ⟨[], [], 0⟩).2.2 = true := by
    rw [runTokens_flag_eq_abortsOn tts tokens]
    exact hab
  rw [stream_eq, if_pos hflag]
  obtain ⟨k, evs0, hk, hevs, hall, hcont, hmin⟩ :=
    runTokens_abort_struct tts tokens ⟨[], [], 0⟩ (by decide) hflag
  simp only [mkState_full, List.nil_append] at hevs hcont hmin
  exact ⟨k, evs0, hk, by rw [hevs, List.cons_append], hall, hcont, hmin⟩

/-- C2 witness: the marker token aborts at the first (and only) token with
no chunk emitted. -/
theorem C2_witness :
    containsSub markerNOREPLY
      (normalizeForMarker ([strL "NO_REPLY"] : List (List Char)).flatten) = true ∧
    ∃ k evs0,
      k ≤ ([strL "NO_REPLY"] : List (List Char)).length ∧
      stream_speech_with_buffering okTTS [strL "NO_REPLY"] =
        Event.ttsStart :: evs0 ++
          [Event.ttsEndNoTotal,
           Event.llmResponse ((([strL "NO_REPLY"] : List (List Char)).take k).flatten)
             RespMeta.noReply] ∧
      evs0.all isChunkEv = true ∧
      containsSub markerNOREPLY
        (normalizeForMarker ((([strL "NO_REPLY"] : List (List Char)).take k).flatten)) =
          true ∧
      (∀ j < k, containsSub markerNOREPLY
        (normalizeForMarker ((([strL "NO_REPLY"] : List (List Char)).take j).flatten)) =
          false) :=
  ⟨by decide, C2_amended okTTS [strL "NO_REPLY"] (by decide)⟩

/-- C6: a run with an arbitrary synthesis oracle is exactly the all-success
run with the chunks of failed sentences dropped (and successful chunks
carrying their real audio): a synthesis failure skips only that sentence's
chunk, every other event — later chunks, `TTS_END`, `LLM_RESPONSE` — is
still emitted in order, and every run still ends in an `LLM_RESPONSE`; a
synthesis failure is never fatal to the reply. -/
theorem C6_synthesis_failure_skipped :
    ∀ (tts : List Char → Option Audio) (tokens : List (List Char)),
      stream_speech_with_buffering tts tokens =
        (stream_speech_with_buffering okTTS tokens).filterMap (transferTTS tts) ∧
      ∃ t m, (stream_speech_with_buffering tts tokens).getLast? =
        some (Event.llmResponse t m) :=
  fun tts tokens => ⟨stream_filterMap tts tokens, stream_last_llm tts tokens⟩

lemma finishEvents_okTTS (st : SState) :
    (pyStrip st.buffer ≠ [] →
      chunkNums (finishEvents okTTS st).1 = [st.count + 1] ∧
      (finishEvents okTTS st).2 = st.count + 1) ∧
    (pyStrip st.buffer = [] →
      chunkNums (finishEvents okTTS st).1 = [] ∧
      (finishEvents okTTS st).2 = st.count) := by
  unfold finishEvents
  constructor
  · intro hb
    rw [if_pos hb]
    exact ⟨by simp [okTTS, chunkNums], rfl⟩
  · intro hb
    rw [if_neg (by simp [hb])]
    exact ⟨by simp [chunkNums], rfl⟩

/-- C7: when the token stream ends without aborting and the sentence buffer
is non-empty, the sentence count is incremented and the buffer (when its
synthesis succeeds) is emitted as a final `TTS_CHUNK` with `is_final` set;
then `TTS_END` carries that count and `LLM_RESPONSE` carries the full
accumulated text with streaming metadata.  With an empty buffer the closing
pair is emitted with the unincremented count.  In particular the tokens
`"Hi"`, `" there"` yield no mid-stream chunk and one final chunk with
sequence 1. -/
theorem C7_final_flush :
    (∀ (tts : List Char → Option Audio) (tokens : List (List Char)) (a : Audio),
      abortsOn tokens = false →
      pyStrip (streamState tts tokens).buffer ≠ [] →
      tts (pyStrip (streamState tts tokens).buffer) = some a →
      stream_speech_with_buffering tts tokens =
        Event.ttsStart :: midEvents tts tokens ++
          [Event.ttsChunkFinal ((streamState tts tokens).count + 1) a,
           Event.ttsEnd ((streamState tts tokens).count + 1),
           Event.llmResponse tokens.flatten
             (RespMeta.streaming ((streamState tts tokens).count + 1))]) ∧
    (∀ (tts : List Char → Option Audio) (tokens : List (List Char)),
      abortsOn tokens = false →
      pyStrip (streamState tts tokens).buffer = [] →
      stream_speech_with_buffering tts tokens =
        Event.ttsStart :: midEvents tts tokens ++
          [Event.ttsEnd (streamState tts tokens).count,
           Event.llmResponse tokens.flatten
             (RespMeta.streaming (streamState tts tokens).count)]) ∧
    stream_speech_with_buffering okTTS [strL "Hi", strL " there"] =
      [Event.ttsStart, Event.ttsChunkFinal 1 (strL "Hi there"),
       Event.ttsEnd 1, Event.llmResponse (strL "Hi there") (RespMeta.streaming 1)] := by
  refine ⟨?_, ?_, by decide⟩
  · intro tts tokens a hab hbuf hts
    have hflagf : (runTokens tts tokens ⟨[], [], 0⟩).2.2 = false := by
      rw [runTokens_flag_eq_abortsOn tts tokens]
      exact hab
    have hfull : (runTokens tts tokens ⟨[], [], 0⟩).2.1.full = tokens.flatten := by
      simpa [mkState_full] using runTokens_full tts tokens ⟨[], [], 0⟩ hflagf
    rw [stream_eq, if_neg (by rw [hflagf]; simp)]
    unfold streamState at hbuf hts
    unfold streamState midEvents
    unfold finishEvents
    rw [if_pos hbuf, hts]
    simp only [hfull]
    simp [List.append_assoc]
  · intro tts tokens hab hbuf
    have hflagf : (runTokens tts tokens ⟨[], [], 0⟩).2.2 = false := by
      rw [runTokens_flag_eq_abortsOn tts tokens]
      exact hab
    have hfull : (runTokens tts tokens ⟨[], [], 0⟩).2.1.full = tokens.flatten := by
      simpa [mkState_full] using runTokens_full tts tokens ⟨[], [], 0⟩ hflagf
    rw [stream_eq, if_neg (by rw [hflagf]; simp)]
    unfold streamState at hbuf
    unfold streamState midEvents
    unfold finishEvents
    rw [if_neg (by simp [hbuf])]
    simp only [hfull]

/-- C7 witness: Scenario C evaluated through the general statement. -/
theorem C7_witness :
    abortsOn [strL "Hi", strL " there"] = false ∧
    stream_speech_with_buffering okTTS [strL "Hi", strL " there"] =
      Event.ttsStart :: midEvents okTTS [strL "Hi", strL " there"] ++
        [Event.ttsChunkFinal
           ((streamState okTTS [strL "Hi", strL " there"]).count + 1) (strL "Hi there"),
         Event.ttsEnd ((streamState okTTS [strL "Hi", strL " there"]).count + 1),
         Event.llmResponse ([strL "Hi", strL " there"] : List (List Char)).flatten
           (RespMeta.streaming
             ((streamState okTTS [strL "Hi", strL " there"]).count + 1))] :=
  ⟨by decide,
   C7_final_flush.1 okTTS [strL "Hi", strL " there"] (strL "Hi there")
     (by decide) (by decide) (by decide)⟩

/-- C10: in every non-aborted run the closing `TTS_END` carries
`totalSentencesOf tokens` — the number of sentence boundaries detected
including the end-of-stream flush, independent of which syntheses fail —
and under the all-success oracle this equals the number of chunks emitted;
with a failing synthesis the total can exceed the number of `TTS_CHUNK`
events actually emitted, as the concrete run shows. -/
theorem C10_total_counts_failed_sentences :
    (∀ (tts : List Char → Option Audio) (tokens : List (List Char)),
      abortsOn tokens = false →
      ∃ pre, stream_speech_with_buffering tts tokens =
        pre ++ [Event.ttsEnd (totalSentencesOf tokens),
          Event.llmResponse tokens.flatten
            (RespMeta.streaming (totalSentencesOf tokens))]) ∧
    (∀ tokens : List (List Char), abortsOn tokens = false →
      totalSentencesOf tokens =
        (chunkNums (stream_speech_with_buffering okTTS tokens)).length) ∧
    (chunkNums (stream_speech_with_buffering failTTS toksGap)).length <
      totalSentencesOf toksGap := by
  refine ⟨?_, ?_, by decide⟩
  · intro tts tokens hab
    have hflagf : (runTokens tts tokens ⟨[], [], 0⟩).2.2 = false := by
      rw [runTokens_flag_eq_abortsOn tts tokens]
      exact hab
    have hfull : (runTokens tts tokens ⟨[], [], 0⟩).2.1.full = tokens.flatten := by
      simpa [mkState_full] using runTokens_full tts tokens ⟨[], [], 0⟩ hflagf
    rw [stream_eq, if_neg (by rw [hflagf]; simp)]
    obtain ⟨flush, t, hf, hfall, ht⟩ :=
      finishEvents_struct tts (runTokens tts tokens ⟨[], [], 0⟩).2.1
    have hst : (runTokens tts tokens ⟨[], [], 0⟩).2.1 =
        (runTokens okTTS tokens ⟨[], [], 0⟩).2.1 :=
      congrArg Prod.fst (runTokens_filterMap tts tokens ⟨[], [], 0⟩).2
    have htot : t = totalSentencesOf tokens := by
      rw [← ht, (finishEvents_filterMap tts _).2, hst]
      rfl
    refine ⟨Event.ttsStart :: (runTokens tts tokens ⟨[], [], 0⟩).1 ++ flush, ?_⟩
    rw [hf, htot, hfull]
    simp [List.append_assoc]
  · intro tokens hab
    have hflagf : (runTokens okTTS tokens ⟨[], [], 0⟩).2.2 = false := by
      rw [runTokens_flag_eq_abortsOn okTTS tokens]
      exact hab
    rw [stream_eq, if_neg (by rw [hflagf]; simp)]
    have hmid := runTokens_chunkNums_range okTTS (fun s => by simp [okTTS])
      tokens ⟨[], [], 0⟩
    simp only [mkState_count, Nat.zero_add, Nat.sub_zero] at hmid
    have hsplit : chunkNums (Event.ttsStart :: (runTokens okTTS tokens ⟨[], [], 0⟩).1 ++
        (finishEvents okTTS (runTokens okTTS tokens ⟨[], [], 0⟩).2.1).1) =
        chunkNums (runTokens okTTS tokens ⟨[], [], 0⟩).1 ++
          chunkNums (finishEvents okTTS (runTokens okTTS tokens ⟨[], [], 0⟩).2.1).1 := by
      rw [List.cons_append]
      show chunkNums ((runTokens okTTS tokens ⟨[], [], 0⟩).1 ++ _) = _
      rw [chunkNums_append]
    rw [hsplit, hmid]
    have htot : totalSentencesOf tokens =
        (finishEvents okTTS (runTokens okTTS tokens ⟨[], [], 0⟩).2.1).2 := rfl
    rw [htot]
    by_cases hb : pyStrip (runTokens okTTS tokens ⟨[], [], 0⟩).2.1.buffer ≠ []
    · obtain ⟨hcn, ht2⟩ := (finishEvents_okTTS _).1 hb
      rw [hcn, ht2]
      simp [List.length_append, List.length_range']
    · obtain ⟨hcn, ht2⟩ := (finishEvents_okTTS _).2 (by simpa using hb)
      rw [hcn, ht2]
      simp [List.length_range']

/-- C10 witness: Scenario A evaluated through the general statement. -/
theorem C10_witness :
    abortsOn [strL "Hello", strL " world."] = false ∧
    (∃ pre, stream_speech_with_buffering okTTS [strL "Hello", strL " world."] =
      pre ++ [Event.ttsEnd (totalSentencesOf [strL "Hello", strL " world."]),
        Event.llmResponse ([strL "Hello", strL " world."] : List (List Char)).flatten
          (RespMeta.streaming (totalSentencesOf [strL "Hello", strL " world."]))]) ∧
    totalSentencesOf [strL "Hello", strL " world."] =
      (chunkNums (stream_speech_with_buffering okTTS
        [strL "Hello", strL " world."])).length :=
  ⟨by decide,
   C10_total_counts_failed_sentences.1 okTTS [strL "Hello", strL " world."] (by decide),
   C10_total_counts_failed_sentences.2.1 [strL "Hello", strL " world."] (by decide)⟩

end VoiceClaw
